import Mathlib

set_option maxRecDepth 4000

/-!
# Verification of the phenix `mm` minimega client

Shallow embedding of `src/go/internal/mm/minimega.go` (the fleet command/control
client) and proofs about its decoding, workflow-sequencing, capture, cluster-host,
and C2 behaviors.

Strings that the Go code micro-parses (bracketed list fields, whitespace-separated
disk lists, composite capture keys) are modelled as `List Char`; protocol command
texts, which are only ever built and compared, are modelled as `String`.

The remote fleet controller (the `mmcli` package, which is not part of the
verified sources) is modelled as an oracle (`Controller`) mapping each issued
command to its response; every operation additionally returns the ordered trace
of protocol commands it issued, so that ordering and abort properties can be
stated.
-/

/-! ## Go string primitives (over `List Char`) -/

/-- `unicode.IsSpace` restricted to the ASCII space characters Go recognizes.
Used by the model of `strings.TrimSpace`. -/
def isGoSpace (c : Char) : Bool :=
  c = ' ' || c = '\t' || c = '\n' || c = '\r' || c = '\x0b' || c = '\x0c'

/-- `strings.TrimPrefix p s`: drop `p` from the front of `s` when present. -/
def stripPre (p s : List Char) : List Char :=
  if p.isPrefixOf s then s.drop p.length else s

/-- `strings.TrimSuffix p s`: drop `p` from the end of `s` when present. -/
def stripSuf (p s : List Char) : List Char :=
  if p.isSuffixOf s then s.take (s.length - p.length) else s

/-- `strings.TrimSpace`. -/
def goTrimSpace (s : List Char) : List Char :=
  ((s.dropWhile isGoSpace).reverse.dropWhile isGoSpace).reverse

/-- `strings.Split s ", "`: split around each left-to-right non-overlapping
occurrence of the two-character separator `", "`.  Always returns at least one
(possibly empty) piece, like Go's `strings.Split` with a non-empty separator. -/
def splitCS : List Char → List (List Char)
  | [] => [[]]
  | [c] => [[c]]
  | c :: d :: rest =>
    if c = ',' ∧ d = ' ' then [] :: splitCS rest
    else (splitCS (d :: rest)).modifyHead (c :: ·)

/-! ## The list-field decoder and (spec-modelled) encoder -/

/-- The bracketed-list field decoder from `GetVMInfo` (minimega.go lines
135-151): trim a leading `[`, a trailing `]`, surrounding whitespace, and split
the remainder on `", "`; an empty remainder (empty brackets or absent field)
yields the empty list. -/
def decodeListField (s : List Char) : List (List Char) :=
  let s1 := stripPre ['['] s
  let s2 := stripSuf [']'] s1
  let s3 := goTrimSpace s2
  if s3 = [] then [] else splitCS s3

/-- `", "`-join of a list of words (an auxiliary for the encoder model). -/
def joinCS : List (List Char) → List Char
  | [] => []
  | [w] => w
  | w :: ws => w ++ ',' :: ' ' :: joinCS ws

/-- Modelled from the spec: the controller-side list-field encoding is
"bracketed, comma-space-separated" (spec section 6); the encoder itself lives in
the fleet controller and is not among the given sources. -/
def encodeListField (ws : List (List Char)) : List Char :=
  '[' :: (joinCS ws ++ [']'])

/-- A character is identifier-safe when it is not a comma, a bracket, or
whitespace. -/
def idSafeChar (c : Char) : Bool :=
  !(c = ',' || c = '[' || c = ']' || isGoSpace c)

/-- An identifier-safe word: non-empty and made of identifier-safe characters. -/
def idSafe (w : List Char) : Bool :=
  !w.isEmpty && w.all idSafeChar

/-! ### Round-trip lemmas for the list-field codec -/

lemma splitCS_cons_cons (c d : Char) (rest : List Char) :
    splitCS (c :: d :: rest) =
      if c = ',' ∧ d = ' ' then [] :: splitCS rest
      else (splitCS (d :: rest)).modifyHead (c :: ·) := by
  rw [splitCS]

lemma splitCS_cons_of_ne (c : Char) (l : List Char) (hc : c ≠ ',') (hl : l ≠ []) :
    splitCS (c :: l) = (splitCS l).modifyHead (c :: ·) := by
  cases l with
  | nil => exact absurd rfl hl
  | cons d rest =>
    rw [splitCS_cons_cons, if_neg]
    intro h
    exact hc h.1

lemma splitCS_of_no_comma (w : List Char) (h : ',' ∉ w) : splitCS w = [w] := by
  induction w with
  | nil => rfl
  | cons c rest ih =>
    have hc : c ≠ ',' := by
      intro e
      exact h (e ▸ List.mem_cons_self c rest)
    cases rest with
    | nil => rfl
    | cons d r2 =>
      rw [splitCS_cons_of_ne c (d :: r2) hc (by simp),
        ih (fun hm => h (List.mem_cons_of_mem _ hm))]
      rfl

lemma splitCS_word_sep (w t : List Char) (h : ',' ∉ w) :
    splitCS (w ++ ',' :: ' ' :: t) = w :: splitCS t := by
  induction w with
  | nil => simp [splitCS_cons_cons]
  | cons c w' ih =>
    have hc : c ≠ ',' := by
      intro e
      exact h (e ▸ List.mem_cons_self c w')
    rw [List.cons_append,
      splitCS_cons_of_ne c _ hc (by simp),
      ih (fun hm => h (List.mem_cons_of_mem _ hm))]
    rfl

lemma splitCS_joinCS (ws : List (List Char)) (hne : ws ≠ [])
    (h : ∀ w ∈ ws, ',' ∉ w) : splitCS (joinCS ws) = ws := by
  induction ws with
  | nil => exact absurd rfl hne
  | cons w ws ih =>
    cases ws with
    | nil => exact splitCS_of_no_comma w (h w (by simp))
    | cons w2 ws2 =>
      rw [show joinCS (w :: w2 :: ws2) = w ++ ',' :: ' ' :: joinCS (w2 :: ws2) from rfl,
        splitCS_word_sep _ _ (h w (by simp)),
        ih (by simp) (fun x hx => h x (List.mem_cons_of_mem _ hx))]

lemma stripPre_bracket (l : List Char) : stripPre ['['] ('[' :: l) = l := by
  have hp : (['[']).isPrefixOf ('[' :: l) = true := by
    simp [List.isPrefixOf]
  simp [stripPre, hp]

lemma stripSuf_bracket (l : List Char) : stripSuf [']'] (l ++ [']']) = l := by
  have hs : ([']']).isSuffixOf (l ++ [']']) = true := by
    simp [List.isSuffixOf, List.isPrefixOf]
  simp [stripSuf, hs]

lemma dropWhile_eq_self_of_head (p : Char → Bool) (c : Char) (t : List Char)
    (hc : p c = false) : (c :: t).dropWhile p = c :: t := by
  simp [List.dropWhile, hc]

/-- The head character of `joinCS (w :: ws)` is the head of `w` when every word
is identifier-safe. -/
lemma joinCS_head (w : List Char) (ws : List (List Char)) (hw : idSafe w) :
    ∃ c t, joinCS (w :: ws) = c :: t ∧ idSafeChar c := by
  cases hww : w with
  | nil =>
    rw [hww] at hw
    simp [idSafe] at hw
  | cons c w' =>
    have hc : idSafeChar c := by
      rw [hww] at hw
      simp [idSafe] at hw
      exact hw.1
    cases ws with
    | nil => exact ⟨c, w', rfl, hc⟩
    | cons w2 ws2 =>
      refine ⟨c, w' ++ ',' :: ' ' :: joinCS (w2 :: ws2), ?_, hc⟩
      rfl

/-- The head character of `(joinCS ws).reverse` (i.e. the last character of the
join) is an identifier-safe character, for non-empty identifier-safe `ws`. -/
lemma joinCS_reverse_head (ws : List (List Char)) (hne : ws ≠ [])
    (h : ∀ w ∈ ws, idSafe w) :
    ∃ c t, (joinCS ws).reverse = c :: t ∧ idSafeChar c := by
  induction ws with
  | nil => exact absurd rfl hne
  | cons w ws ih =>
    cases ws with
    | nil =>
      have hw : idSafe w := h w (by simp)
      cases hr : w.reverse with
      | nil =>
        rw [List.reverse_eq_nil_iff] at hr
        rw [hr] at hw
        simp [idSafe] at hw
      | cons c t =>
        have hcw : c ∈ w := by
          have : c ∈ w.reverse := by rw [hr]; exact List.mem_cons_self c t
          exact List.mem_reverse.mp this
        have hc : idSafeChar c := by
          simp [idSafe] at hw
          exact hw.2 c hcw
        exact ⟨c, t, by rw [show joinCS [w] = w from rfl, hr], hc⟩
    | cons w2 ws2 =>
      obtain ⟨c, t, hct, hc⟩ := ih (by simp) (fun x hx => h x (List.mem_cons_of_mem _ hx))
      refine ⟨c, t ++ (' ' :: [','] ++ w.reverse), ?_, hc⟩
      rw [show joinCS (w :: w2 :: ws2) = w ++ ',' :: ' ' :: joinCS (w2 :: ws2) from rfl]
      rw [List.reverse_append, List.reverse_cons, List.reverse_cons]
      rw [hct]
      simp

lemma idSafeChar_not_space (c : Char) (hc : idSafeChar c) : isGoSpace c = false := by
  simp [idSafeChar] at hc
  exact hc.2

lemma goTrimSpace_joinCS (ws : List (List Char)) (hne : ws ≠ [])
    (h : ∀ w ∈ ws, idSafe w) : goTrimSpace (joinCS ws) = joinCS ws := by
  cases ws with
  | nil => exact absurd rfl hne
  | cons w ws =>
    obtain ⟨c, t, hct, hc⟩ := joinCS_head w ws (h w (by simp))
    obtain ⟨c', t', hct', hc'⟩ := joinCS_reverse_head (w :: ws) (by simp) h
    unfold goTrimSpace
    rw [hct, dropWhile_eq_self_of_head _ _ _ (idSafeChar_not_space c hc), ← hct,
      hct', dropWhile_eq_self_of_head _ _ _ (idSafeChar_not_space c' hc'), ← hct',
      List.reverse_reverse]

lemma joinCS_ne_nil (ws : List (List Char)) (hne : ws ≠ [])
    (h : ∀ w ∈ ws, idSafe w) : joinCS ws ≠ [] := by
  cases ws with
  | nil => exact absurd rfl hne
  | cons w ws =>
    obtain ⟨c, t, hct, _⟩ := joinCS_head w ws (h w (by simp))
    rw [hct]
    simp

/-- Claim C8: decoding the bracketed comma-space-joined encoding of a vlan/tap
list field recovers the original sequence of identifier-safe words, and both the
empty-bracket string `"[]"` and an absent (empty) field decode to the empty
list. -/
theorem c8_list_field_decode_encode (ws : List (List Char))
    (h : ∀ w ∈ ws, idSafe w) :
    decodeListField (encodeListField ws) = ws ∧
    decodeListField ['[', ']'] = [] ∧
    decodeListField [] = [] := by
  refine ⟨?_, by decide, rfl⟩
  cases hws : ws with
  | nil => decide
  | cons w ws2 =>
    have hall : ∀ x ∈ w :: ws2, idSafe x := by
      rw [← hws]; exact h
    have hcomma : ∀ x ∈ w :: ws2, ',' ∉ x := by
      intro x hx hmem
      have hs := hall x hx
      simp [idSafe] at hs
      have := hs.2 ',' hmem
      simp [idSafeChar] at this
    simp only [encodeListField, decodeListField]
    rw [stripPre_bracket, stripSuf_bracket,
      goTrimSpace_joinCS (w :: ws2) (by simp) hall,
      if_neg (joinCS_ne_nil (w :: ws2) (by simp) hall)]
    exact splitCS_joinCS (w :: ws2) (by simp) hcomma

/-- Witness for C8 at the concrete sequence `["eth0", "eth1"]`. -/
theorem c8_list_field_decode_encode_witness :
    decodeListField (encodeListField [['e','t','h','0'], ['e','t','h','1']]) =
      [['e','t','h','0'], ['e','t','h','1']] ∧
    decodeListField ['[', ']'] = [] ∧
    decodeListField [] = [] :=
  c8_list_field_decode_encode [['e','t','h','0'], ['e','t','h','1']] (by decide)

/-! ## The command protocol model

The `mmcli` package (the transport to the fleet controller) is not among the
given sources; per the spec (section 4.1) it issues one command and returns
either structured responses, tabular rows, or single values.  It is modelled as
an oracle `Controller` mapping each command value to its response.  Every
operation below additionally returns the ordered list of commands it issued, so
ordering/abort claims can be stated. -/

/-- A protocol command: optional namespace scope, command text, requested
columns, and equality filters (mirrors `mmcli.Command`). -/
structure Cmd where
  ns : Option String := none
  command : String := ""
  columns : List String := []
  filters : List String := []
deriving DecidableEq

/-- `mmcli.NewCommand()`. -/
def newCmd (c : String) : Cmd := { command := c }

/-- `mmcli.NewNamespacedCommand(ns)` with command text `c`. -/
def nsCmd (ns c : String) : Cmd := { ns := some ns, command := c }

/-- One tabular response row: a mapping from column name to string value. -/
abbrev Row := List (String × String)

/-- Row lookup; a missing column reads as `""`, like a Go map of strings. -/
def rowGet (r : Row) (k : String) : String :=
  match r.find? (fun p => p.1 == k) with
  | some p => p.2
  | none => ""

/-- One streamed response (`mmcli.Run` element): a per-resource error string and
a response payload. -/
structure MMResp where
  error : String
  response : String
deriving DecidableEq

/-- The fleet-controller oracle.  `run c` is the collapsed error of
`mmcli.ErrorResponse(mmcli.Run(c))` (`none` = success); `tab` is
`mmcli.RunTabular`; `resps` is the flattened stream of `mmcli.Run`;
`singleData`/`single` are `mmcli.SingleDataResponse`/`mmcli.SingleResponse`. -/
structure Controller where
  run : Cmd → Option String
  tab : Cmd → List Row
  resps : Cmd → List MMResp
  singleData : Cmd → Except String String
  single : Cmd → Except String String

/-- Errors returned by the `mm` operations: the three sentinel values declared
at the top of minimega.go, plain messages, and `fmt.Errorf("...: %w", err)`
wrapping. -/
inductive MErr where
  | captureExists
  | noCaptures
  | c2NotActive
  | msg (s : String)
  | wrap (context : String) (e : MErr)
deriving DecidableEq

/-- Modelled from the spec: the variadic functional options of the `mm` package
(`options.go` is not among the given sources).  Fields and defaults follow spec
section 3: namespace defaults to the unscoped/default namespace, a disk inject
partition defaults to 1. -/
structure Options where
  ns : String := ""
  vm : String := ""
  cpu : ℕ := 0
  mem : ℕ := 0
  disk : String := ""
  injectPart : ℕ := 1
  injects : List String := []
  captureIface : ℤ := 0
  captureFile : String := ""
deriving DecidableEq

/-! ## `flush` and `KillVM` (claim C9) -/

/-- The `vm flush` command issued by `flush(ns)` (minimega.go lines 787-796). -/
def flushCmd (ns : String) : Cmd := nsCmd ns "vm flush"

/-- `flush(ns)`: issue `vm flush` in the namespace, wrapping any error. -/
def flush (ctrl : Controller) (ns : String) : List Cmd × Option MErr :=
  match ctrl.run (flushCmd ns) with
  | none => ([flushCmd ns], none)
  | some e => ([flushCmd ns],
      some (.wrap ("flushing VMs in namespace " ++ ns) (.msg e)))

/-- The `vm kill <vm>` command issued by `KillVM`. -/
def killCmd (o : Options) : Cmd := nsCmd o.ns ("vm kill " ++ o.vm)

/-- `KillVM` (minimega.go lines 387-398): issue the kill; on failure return its
wrapped error, otherwise run `flush` and return its outcome. -/
def KillVM (ctrl : Controller) (o : Options) : List Cmd × Option MErr :=
  match ctrl.run (killCmd o) with
  | some e => ([killCmd o],
      some (.wrap ("killing VM " ++ o.vm ++ " in namespace " ++ o.ns) (.msg e)))
  | none =>
    let f := flush ctrl o.ns
    (killCmd o :: f.1, f.2)

lemma flush_fst (ctrl : Controller) (ns : String) :
    (flush ctrl ns).1 = [flushCmd ns] := by
  unfold flush
  cases ctrl.run (flushCmd ns) <;> rfl

/-- A controller double whose only failure is the `vm kill test` command. -/
def c9Ctrl : Controller where
  run := fun c => if c.command = "vm kill test" then some "boom" else none
  tab := fun _ => []
  resps := fun _ => []
  singleData := fun _ => .error ""
  single := fun _ => .error ""

def c9Opts : Options := { ns := "exp", vm := "test" }

/-- C9 counterexample: when the kill command itself fails, `KillVM` returns
without ever issuing the flush command, so the flush is not "always issued". -/
theorem c9_counterexample :
    (KillVM c9Ctrl c9Opts).1 = [killCmd c9Opts] ∧
    flushCmd "exp" ∉ (KillVM c9Ctrl c9Opts).1 := by
  decide

/-- Claim C9 (amended): on every `KillVM` call whose kill command succeeds, the
namespace flush command is issued immediately after the kill command; if the
kill command fails, `KillVM` returns the kill's wrapped error and no flush is
issued. -/
theorem c9_kill_then_flush (ctrl : Controller) (o : Options) :
    (ctrl.run (killCmd o) = none →
      KillVM ctrl o = ([killCmd o, flushCmd o.ns], (flush ctrl o.ns).2)) ∧
    (∀ e, ctrl.run (killCmd o) = some e →
      KillVM ctrl o = ([killCmd o],
        some (.wrap ("killing VM " ++ o.vm ++ " in namespace " ++ o.ns) (.msg e)))) := by
  constructor
  · intro h
    unfold KillVM
    rw [h]
    simp [flush_fst]
  · intro e h
    unfold KillVM
    rw [h]

/-- A controller double on which every command succeeds. -/
def allOkCtrl : Controller where
  run := fun _ => none
  tab := fun _ => []
  resps := fun _ => []
  singleData := fun _ => .error ""
  single := fun _ => .error ""

/-- Witness for C9 at a concrete succeeding controller. -/
theorem c9_kill_then_flush_witness :
    KillVM allOkCtrl c9Opts = ([killCmd c9Opts, flushCmd "exp"], none) :=
  ((c9_kill_then_flush allOkCtrl c9Opts).1 rfl).trans rfl

/-! ## `GetLaunchProgress` (claim C3) -/

/-- Model of the value of a Go `float64` division `float64(a) / float64(b)`.
The quotient is kept as an exact rational: IEEE rounding is monotone and `0`
and `1` are exactly representable, so membership in `[0,1]` — the only property
claimed about the quotient — is unaffected.  The zero-divisor cases follow
IEEE-754 exactly (the divisor cast of `0` is `+0`): `0/0` is NaN and `a/0` for
`a > 0` is `+Inf`. -/
inductive GoFloat where
  | fin (q : ℚ)
  | posInf
  | negInf
  | nan
deriving DecidableEq

/-- `float64(a) / float64(b)` for a non-negative numerator. -/
def goDiv (a : ℕ) (b : ℤ) : GoFloat :=
  if b = 0 then (if a = 0 then .nan else .posInf)
  else .fin ((a : ℚ) / (b : ℚ))

/-- The capture after the first occurrence of `"Names: "` in one line, if any. -/
def findNamesCap : List Char → Option (List Char)
  | [] => none
  | c :: rest =>
    if ("Names: ".toList).isPrefixOf (c :: rest) then some ((c :: rest).drop 7)
    else findNamesCap rest

/-- All captured groups of the regular expression `Names: (.*)` in `s`,
mirroring `regexp.FindAllStringSubmatch` (minimega.go lines 76-87).  `.` does
not match a newline and the literal contains none, so every match lies within
one line and its greedy `(.*)` consumes the rest of that line; the
non-overlapping left-to-right scan therefore yields, for each line, the text
after the first occurrence of `"Names: "` - when that line has one. -/
def namesMatches (s : List Char) : List (List Char) :=
  (s.splitOn '\n').filterMap findNamesCap

/-- The `ns queue` command of `GetLaunchProgress`. -/
def nsQueueCmd (ns : String) : Cmd := nsCmd ns "ns queue"

/-- The `vm info` (state column) command of `GetLaunchProgress`. -/
def vmStateCmd (ns : String) : Cmd := { nsCmd ns "vm info" with columns := ["state"] }

/-- The queued-VM count from the `ns queue` responses: for each non-error
response, every `Names: ...` capture contributes the length of its
comma-separated split (minimega.go lines 78-88). -/
def queuedFromQueue (ctrl : Controller) (ns : String) : ℕ :=
  (((ctrl.resps (nsQueueCmd ns)).filter (fun r => r.error = "")).map
    (fun r => ((namesMatches r.response.toList).map
      (fun m => (m.splitOn ',').length)).sum)).sum

/-- The fallback count of rows whose state is `BUILDING`. -/
def buildingCount (ctrl : Controller) (ns : String) : ℕ :=
  ((ctrl.tab (vmStateCmd ns)).filter (fun s => rowGet s "state" = "BUILDING")).length

/-- `GetLaunchProgress` (minimega.go lines 70-111): count queued VMs from
`ns queue`; if zero, fall back to counting `BUILDING` rows of `vm info`
(returning `0.0` when that query yields no rows); finally return
`float64(queued) / float64(expected)` with a nil error - there is no guard on
`expected`. -/
def GetLaunchProgress (ctrl : Controller) (ns : String) (expected : ℤ) :
    GoFloat × Option MErr :=
  if queuedFromQueue ctrl ns = 0 then
    if (ctrl.tab (vmStateCmd ns)).length = 0 then (.fin 0, none)
    else (goDiv (buildingCount ctrl ns) expected, none)
  else (goDiv (queuedFromQueue ctrl ns) expected, none)

/-- The queued count `GetLaunchProgress` ends up dividing (queue count, with the
`BUILDING` fallback). -/
def queuedFinal (ctrl : Controller) (ns : String) : ℕ :=
  if queuedFromQueue ctrl ns = 0 then buildingCount ctrl ns
  else queuedFromQueue ctrl ns

/-- A controller double whose `ns queue` reports one queued VM. -/
def c3Ctrl : Controller where
  run := fun _ => none
  tab := fun _ => []
  resps := fun c => if c.command = "ns queue" then [⟨"", "Names: foo"⟩] else []
  singleData := fun _ => .error ""
  single := fun _ => .error ""

/-- C3 counterexample: with one queued VM and `expected = 0`, the call does not
reject the zero expected count - it performs the unguarded division and returns
`+Inf` with a nil error. -/
theorem c3_counterexample :
    GetLaunchProgress c3Ctrl "exp" 0 = (.posInf, none) := by
  decide

lemma goDiv_mem_unit (a : ℕ) (b : ℤ) (hpos : 0 < b) (hle : (a : ℤ) ≤ b) :
    ∃ q : ℚ, goDiv a b = .fin q ∧ 0 ≤ q ∧ q ≤ 1 := by
  refine ⟨(a : ℚ) / (b : ℚ), ?_, ?_, ?_⟩
  · unfold goDiv
    rw [if_neg (by omega)]
  · exact div_nonneg (Nat.cast_nonneg a) (le_of_lt (by exact_mod_cast hpos))
  · rw [div_le_one (by exact_mod_cast hpos)]
    exact_mod_cast hle

/-- Claim C3 (amended): `GetLaunchProgress` returns `queued/expected`, which
lies in `[0,1]` whenever the (non-negative) queued count is at most `expected`
and `expected` is positive; `expected = 0` is not rejected - the code performs
the unguarded float division, yielding `+Inf` or NaN with a nil error. -/
theorem c3_launch_progress_range (ctrl : Controller) (ns : String) (expected : ℤ)
    (hpos : 0 < expected) (hle : (queuedFinal ctrl ns : ℤ) ≤ expected) :
    ∃ q : ℚ, GetLaunchProgress ctrl ns expected = (.fin q, none) ∧ 0 ≤ q ∧ q ≤ 1 := by
  unfold GetLaunchProgress
  unfold queuedFinal at hle
  by_cases hq : queuedFromQueue ctrl ns = 0
  · rw [if_pos hq]
    rw [if_pos hq] at hle
    by_cases hs : (ctrl.tab (vmStateCmd ns)).length = 0
    · exact ⟨0, by rw [if_pos hs], le_refl 0, zero_le_one⟩
    · rw [if_neg hs]
      obtain ⟨q, h1, h2, h3⟩ := goDiv_mem_unit (buildingCount ctrl ns) expected hpos hle
      exact ⟨q, by rw [h1], h2, h3⟩
  · rw [if_neg hq]
    rw [if_neg hq] at hle
    obtain ⟨q, h1, h2, h3⟩ := goDiv_mem_unit (queuedFromQueue ctrl ns) expected hpos hle
    exact ⟨q, by rw [h1], h2, h3⟩

/-- Witness for C3 (amended) at a concrete controller with one queued VM and
`expected = 2`. -/
theorem c3_launch_progress_range_witness :
    ∃ q : ℚ, GetLaunchProgress c3Ctrl "exp" 2 = (.fin q, none) ∧ 0 ≤ q ∧ q ≤ 1 :=
  c3_launch_progress_range c3Ctrl "exp" 2 (by decide) (by decide)

/-! ## Captures and `StartVMCapture` (claims C5, C6) -/

/-- Unsigned decimal value of a digit string. -/
def digitsVal (l : List Char) : ℕ :=
  l.foldl (fun a c => a * 10 + (c.toNat - '0'.toNat)) 0

/-- `strconv.Atoi`, with the error swallowed as the call sites do
(`idx, _ := strconv.Atoi(...)`): on malformed input the zero value is used.
Machine-word overflow is not modelled; no claim involves it. -/
def atoiInt (s : String) : ℤ :=
  match s.toList with
  | '-' :: rest => if rest ≠ [] ∧ rest.all (·.isDigit) then -(digitsVal rest : ℤ) else 0
  | '+' :: rest => if rest ≠ [] ∧ rest.all (·.isDigit) then (digitsVal rest : ℤ) else 0
  | l => if l ≠ [] ∧ l.all (·.isDigit) then (digitsVal l : ℤ) else 0

/-- A packet capture (Go fields `VM`, `Interface`, `Filepath`). -/
structure Capture where
  vm : String
  iface : ℤ
  path : String
deriving DecidableEq

/-- Decode one row of the shared capture table: the `interface` column has the
form `<vm>:<iface>` and is split on `:` (minimega.go lines 534-548).  (Go
panics, via an out-of-range index, on a row whose interface column has no `:`;
no claim concerns malformed capture rows, which here decode with `""`/`0`.) -/
def captureOfRow (r : Row) : Capture :=
  let parts := ((rowGet r "interface").toList.splitOn ':').map (fun l => String.mk l)
  { vm := parts.headD ""
    iface := atoiInt (parts.getD 1 "")
    path := rowGet r "path" }

/-- The namespaced `capture` table query of `GetExperimentCaptures`. -/
def captureQueryCmd (ns : String) : Cmd :=
  { nsCmd ns "capture" with columns := ["interface", "path"] }

/-- `GetExperimentCaptures` (minimega.go lines 525-551). -/
def GetExperimentCaptures (ctrl : Controller) (o : Options) : List Capture :=
  (ctrl.tab (captureQueryCmd o.ns)).map captureOfRow

/-- `GetVMCaptures` (minimega.go lines 553-568): the experiment captures whose
VM name matches the target VM. -/
def GetVMCaptures (ctrl : Controller) (o : Options) : List Capture :=
  (GetExperimentCaptures ctrl o).filter (fun c => c.vm == o.vm)

/-- A protocol interaction: a state-mutating `run` command or a read-only
tabular `query`. -/
inductive PEvent where
  | run (c : Cmd)
  | query (c : Cmd)
deriving DecidableEq

/-- `filepath.IsAbs` on Unix: the path starts with `/`. -/
def isAbsPath (p : String) : Bool :=
  match p.toList with
  | '/' :: _ => true
  | _ => false

/-- `filepath.Dir`, without Go's `Clean` normalization of the result (no claim
depends on the directory string; it appears only inside the mkdir command text
on `StartVMCapture`'s success path). -/
def goDir (p : String) : String :=
  let pre := (p.toList.reverse.dropWhile (· ≠ '/')).reverse
  if pre = [] then "."
  else if pre = ['/'] then "/"
  else String.mk pre.dropLast

/-- Modelled from the spec: `common.PhenixBase`, the fixed base directory under
which capture files are rooted (spec sections 3 and 6); its concrete value is
immaterial to every claim. -/
def phenixBase : String := "/phenix"

/-- Modelled from the spec: `common.TrimHostnameSuffixes` is not among the given
sources; per the spec (section 4.5) and the code comments at minimega.go lines
632-640, it strips deployment-added suffixes such as `-minimega` or `-phenix`
from a host name. -/
def trimHostnameSuffixes (s : String) : String :=
  String.mk (stripSuf ("-phenix".toList) (stripSuf ("-minimega".toList) s.toList))

/-- The `vm info` host-column query of `GetVMHost` (minimega.go lines 400-415). -/
def vmHostQueryCmd (o : Options) : Cmd :=
  { nsCmd o.ns "vm info" with columns := ["host"], filters := ["name=" ++ o.vm] }

/-- The `host` table query of `processNamespaceHosts`. -/
def hostsQueryCmd (ns : String) : Cmd := nsCmd ns "host"

/-- A cluster host.  The Go struct also carries CPU/memory/load/traffic counters
parsed from the same row (minimega.go lines 820-838); no claim concerns them,
so only the fields the claims touch are modelled. -/
structure Host where
  name : String
  schedulable : Bool := false
  headnode : Bool := false
deriving DecidableEq

/-- `processNamespaceHosts` (minimega.go lines 811-842): query the `host` table
in a namespace and decode one `Host` per row (it never returns an error). -/
def processNamespaceHosts (ctrl : Controller) (ns : String) : List PEvent × List Host :=
  ([.query (hostsQueryCmd ns)],
   (ctrl.tab (hostsQueryCmd ns)).map (fun r => { name := rowGet r "host" }))

/-- `Headnode()` (minimega.go lines 622-635): the suffix-trimmed name of the
first row of the `minimega`-namespace host table, or `""` if there is none. -/
def Headnode (ctrl : Controller) : List PEvent × String :=
  let p := processNamespaceHosts ctrl "minimega"
  (p.1,
   match p.2 with
   | [] => ""
   | h :: _ => trimHostnameSuffixes h.name)

/-- `IsHeadnode(node)` (minimega.go lines 637-643). -/
def IsHeadnode (ctrl : Controller) (node : String) : List PEvent × Bool :=
  let h := Headnode ctrl
  (h.1, trimHostnameSuffixes node == h.2)

/-- The `capture pcap vm ...` start command of `StartVMCapture`. -/
def captureStartCmd (o : Options) : Cmd :=
  nsCmd o.ns ("capture pcap vm " ++ o.vm ++ " " ++ toString o.captureIface ++ " "
    ++ o.captureFile)

/-- `StartVMCapture` (minimega.go lines 462-504): list the VM's captures (a
remote read); fail with the capture-exists sentinel if one covers the requested
interface; fail if the capture file path is absolute; look up the VM's host;
ensure the capture directory exists (routing through the host when it is not
the headnode - note the command text keeps `fmt.Sprintf`'s leading space when
the prefix is empty); finally issue the capture-start command. -/
def StartVMCapture (ctrl : Controller) (o : Options) : List PEvent × Option MErr :=
  let capQ := captureQueryCmd o.ns
  let captures := GetVMCaptures ctrl o
  let tr0 := [PEvent.query capQ]
  if captures.any (fun c => c.iface == o.captureIface) then
    (tr0, some .captureExists)
  else if isAbsPath o.captureFile then
    (tr0, some (.msg "path for capture file should not be absolute"))
  else
    let hq := vmHostQueryCmd o
    let tr1 := tr0 ++ [PEvent.query hq]
    match ctrl.tab hq with
    | [] => (tr1, some (.wrap "unable to determine what host the VM is scheduled on"
        (.msg ("VM " ++ o.vm ++ " not found"))))
    | r :: _ =>
      let host := rowGet r "host"
      let ih := IsHeadnode ctrl host
      let tr2 := tr1 ++ ih.1
      let cmdPre := if !ih.2 then "mesh send " ++ host else ""
      let dir := phenixBase ++ "/images/" ++ goDir o.captureFile
      let mk := newCmd (cmdPre ++ " shell mkdir -p " ++ dir)
      let tr3 := tr2 ++ [PEvent.run mk]
      match ctrl.run mk with
      | some e => (tr3, some (.wrap "ensuring experiment files directory exists" (.msg e)))
      | none =>
        let cs := captureStartCmd o
        let tr4 := tr3 ++ [PEvent.run cs]
        match ctrl.run cs with
        | some e => (tr4, some (.wrap ("starting VM capture for interface "
            ++ toString o.captureIface ++ " on VM " ++ o.vm ++ " in namespace "
            ++ o.ns) (.msg e)))
        | none => (tr4, none)

def c5Opts : Options :=
  { ns := "exp", vm := "foo", captureIface := 0, captureFile := "/tmp/cap.pcap" }

/-- C5 counterexample: with an absolute capture file path the call fails, but
only after having issued one remote protocol command - the capture-table query -
so it does not fail "before issuing any remote protocol command". -/
theorem c5_counterexample :
    (StartVMCapture allOkCtrl c5Opts).2 =
      some (.msg "path for capture file should not be absolute") ∧
    (StartVMCapture allOkCtrl c5Opts).1 ≠ [] := by
  decide

/-- Claim C5 (amended): for every `StartVMCapture` call whose capture file path
is absolute, the call fails, and the only remote protocol command issued before
the failure is the read-only capture-table query - in particular no
state-mutating command (directory creation or capture start) is issued. -/
theorem c5_absolute_path (ctrl : Controller) (o : Options)
    (h : isAbsPath o.captureFile = true) :
    (StartVMCapture ctrl o).1 = [PEvent.query (captureQueryCmd o.ns)] ∧
    (StartVMCapture ctrl o).2.isSome = true := by
  unfold StartVMCapture
  by_cases hc : (GetVMCaptures ctrl o).any (fun c => c.iface == o.captureIface) = true
  · simp [hc]
  · simp [hc, h]

/-- Witness for C5 (amended) at a concrete controller and options. -/
theorem c5_absolute_path_witness :
    (StartVMCapture allOkCtrl c5Opts).1 = [PEvent.query (captureQueryCmd "exp")] ∧
    (StartVMCapture allOkCtrl c5Opts).2.isSome = true :=
  c5_absolute_path allOkCtrl c5Opts rfl

/-- Claim C6: when some existing capture on the target VM already covers the
requested interface index, `StartVMCapture` fails with the `ErrCaptureExists`
sentinel and issues no state-mutating remote command - its whole trace is the
single read-only capture-table query. -/
theorem c6_capture_exists (ctrl : Controller) (o : Options)
    (h : ∃ c ∈ GetVMCaptures ctrl o, c.iface = o.captureIface) :
    StartVMCapture ctrl o =
      ([PEvent.query (captureQueryCmd o.ns)], some .captureExists) := by
  unfold StartVMCapture
  have hany : (GetVMCaptures ctrl o).any (fun c => c.iface == o.captureIface) = true := by
    obtain ⟨c, hc, he⟩ := h
    exact List.any_eq_true.mpr ⟨c, hc, by simp [he]⟩
  simp [hany]

def c6Ctrl : Controller where
  run := fun _ => none
  tab := fun c => if c.command = "capture"
    then [[("interface", "foo:1"), ("path", "f.pcap")]] else []
  resps := fun _ => []
  singleData := fun _ => .error ""
  single := fun _ => .error ""

def c6Opts : Options :=
  { ns := "exp", vm := "foo", captureIface := 1, captureFile := "caps/f.pcap" }

/-- Witness for C6 at a controller whose capture table already has `foo:1`. -/
theorem c6_capture_exists_witness :
    StartVMCapture c6Ctrl c6Opts =
      ([PEvent.query (captureQueryCmd "exp")], some .captureExists) :=
  c6_capture_exists c6Ctrl c6Opts ⟨⟨"foo", 1, "f.pcap"⟩, by decide, rfl⟩

/-! ## `GetClusterHosts` (claim C7) -/

/-- The `clear namespace <ns>` command of `ClearNamespace` (minimega.go lines
42-51). -/
def clearNsCmd (ns : String) : Cmd := newCmd ("clear namespace " ++ ns)

/-- The body of the compute-node loop of `GetClusterHosts` (minimega.go lines
597-609): a compute node whose raw name equals the headnode's raw name flips
the headnode to schedulable and is skipped; any other node is appended with its
name suffix-trimmed and marked schedulable. -/
def clusterFoldStep (acc : List Host × Host) (host : Host) : List Host × Host :=
  if host.name = acc.2.name then (acc.1, { acc.2 with schedulable := true })
  else (acc.1 ++ [{ name := trimHostnameSuffixes host.name, schedulable := true }], acc.2)

/-- `GetClusterHosts` (minimega.go lines 570-620): discover the headnode from
the first `minimega`-namespace host row; clear and re-query the `__phenix__`
discovery namespace for compute nodes; fold them with `clusterFoldStep`; if
only schedulable hosts were requested and the headnode never became
schedulable, return the compute nodes alone, otherwise append the (trimmed)
headnode last. -/
def GetClusterHosts (ctrl : Controller) (schedOnly : Bool) :
    List PEvent × Except MErr (List Host) :=
  let p1 := processNamespaceHosts ctrl "minimega"
  match p1.2 with
  | [] => (p1.1, .error (.msg "no cluster hosts found"))
  | h :: _ =>
    let head0 : Host := { name := h.name, schedulable := false, headnode := true }
    let tr := p1.1 ++ [PEvent.run (clearNsCmd "__phenix__")]
    let p2 := processNamespaceHosts ctrl "__phenix__"
    let tr2 := tr ++ p2.1
    let step := p2.2.foldl clusterFoldStep ([], head0)
    if schedOnly && !step.2.schedulable then (tr2, .ok step.1)
    else (tr2, .ok (step.1 ++ [{ step.2 with name := trimHostnameSuffixes step.2.name }]))

lemma clusterFold_no_match (rows : List Host) (acc : List Host) (head : Host)
    (h : ∀ r ∈ rows, r.name ≠ head.name) :
    rows.foldl clusterFoldStep (acc, head) =
      (acc ++ rows.map (fun r =>
        { name := trimHostnameSuffixes r.name, schedulable := true, headnode := false }),
       head) := by
  induction rows generalizing acc with
  | nil => simp
  | cons r rows ih =>
    rw [List.foldl_cons]
    rw [show clusterFoldStep (acc, head) r =
      (acc ++ [{ name := trimHostnameSuffixes r.name, schedulable := true }], head) from by
        unfold clusterFoldStep
        rw [if_neg (h r (List.mem_cons_self r rows))]]
    rw [ih _ (fun x hx => h x (List.mem_cons_of_mem _ hx))]
    simp

def c7Ctrl : Controller where
  run := fun _ => none
  tab := fun c =>
    if c.ns = some "minimega" ∧ c.command = "host" then [[("host", "head-phenix")]]
    else if c.ns = some "__phenix__" ∧ c.command = "host" then [[("host", "head-minimega")]]
    else []
  resps := fun _ => []
  singleData := fun _ => .error ""
  single := fun _ => .error ""

/-- C7 counterexample: a cluster whose sole compute node's *normalized* name
equals the headnode's (so the claim calls it single-node), but whose raw names
differ.  The code compares raw names, so the headnode is never flipped to
schedulable, and `GetClusterHosts true` returns one host with
`headnode = false` - not the claimed `headnode = true, schedulable = true`. -/
theorem c7_counterexample :
    trimHostnameSuffixes "head-minimega" = trimHostnameSuffixes "head-phenix" ∧
    (GetClusterHosts c7Ctrl true).2 =
      .ok [{ name := "head", schedulable := true, headnode := false }] := by
  exact ⟨by decide, rfl⟩

/-- Claim C7 (amended): the single-node detection compares raw (untrimmed)
names.  When the sole compute row's raw name equals the headnode row's raw
name, `GetClusterHosts true` returns exactly one host, suffix-trimmed, with
`headnode = true` and `schedulable = true`; when every compute row's raw name
differs from the headnode's, it returns all compute nodes marked schedulable,
appending the headnode last with `schedulable = false` unless only schedulable
hosts were requested, in which case the headnode is omitted. -/
theorem c7_cluster_hosts (ctrl : Controller) :
    (∀ rh rc, ctrl.tab (hostsQueryCmd "minimega") = [rh] →
      ctrl.tab (hostsQueryCmd "__phenix__") = [rc] →
      rowGet rc "host" = rowGet rh "host" →
      (GetClusterHosts ctrl true).2 =
        .ok [{ name := trimHostnameSuffixes (rowGet rh "host"),
               schedulable := true, headnode := true }]) ∧
    (∀ rh rest, ctrl.tab (hostsQueryCmd "minimega") = rh :: rest →
      (∀ rc ∈ ctrl.tab (hostsQueryCmd "__phenix__"),
        rowGet rc "host" ≠ rowGet rh "host") →
      ∀ schedOnly, (GetClusterHosts ctrl schedOnly).2 = .ok (
        (ctrl.tab (hostsQueryCmd "__phenix__")).map (fun rc =>
          { name := trimHostnameSuffixes (rowGet rc "host"),
            schedulable := true, headnode := false })
        ++ (if schedOnly then []
            else [{ name := trimHostnameSuffixes (rowGet rh "host"),
                    schedulable := false, headnode := true }]))) := by
  constructor
  · intro rh rc h1 h2 heq
    have hstep : clusterFoldStep ([], ⟨rowGet rh "host", false, true⟩)
        ⟨rowGet rc "host", false, false⟩ = ([], ⟨rowGet rh "host", true, true⟩) := by
      unfold clusterFoldStep
      rw [if_pos heq]
    unfold GetClusterHosts processNamespaceHosts
    simp only [h1, h2, List.map_cons, List.map_nil, List.foldl_cons, List.foldl_nil]
    rw [hstep]
    simp
  · intro rh rest h1 hne schedOnly
    unfold GetClusterHosts processNamespaceHosts
    simp only [h1, List.map_cons]
    rw [clusterFold_no_match _ _ _ (by
      intro r hr
      simp only [List.mem_map] at hr
      obtain ⟨rc, hrc, hr⟩ := hr
      rw [← hr]
      exact hne rc hrc)]
    cases schedOnly with
    | true => simp [List.map_map, Function.comp]
    | false => simp [List.map_map, Function.comp]

def c7wCtrl : Controller where
  run := fun _ => none
  tab := fun c =>
    if c.command = "host" then [[("host", "head")]] else []
  resps := fun _ => []
  singleData := fun _ => .error ""
  single := fun _ => .error ""

/-- Witness for C7 (amended) on a concrete single-node cluster with equal raw
names. -/
theorem c7_cluster_hosts_witness :
    (GetClusterHosts c7wCtrl true).2 =
      .ok [{ name := trimHostnameSuffixes "head", schedulable := true, headnode := true }] :=
  (c7_cluster_hosts c7wCtrl).1 [("host", "head")] [("host", "head")] rfl rfl rfl

/-! ## `RedeployVM` (claim C4)

The Go function is a straight-line sequence of protocol calls with early
return (minimega.go lines 282-385).  It is embedded in the `Except` monad
(`step` models one `mmcli.ErrorResponse(mmcli.Run(cmd))` call with its
`fmt.Errorf` wrapping and early return), phase by phase in source order.  A
generic step-runner `runSteps` over the planned step list `redeploySteps` is
then proved equal to the embedding, and the first-failure property is proved
once for `runSteps`. -/

/-- `filepath.Base` (Unix): empty path yields `.`; otherwise trailing slashes
are dropped and the part after the last remaining slash is returned (`/` if
nothing remains). -/
def goBase (p : String) : String :=
  if p = "" then "."
  else
    let l := (p.toList.reverse.dropWhile (· = '/')).reverse
    if l = [] then "/"
    else String.mk ((l.reverse.takeWhile (· ≠ '/')).reverse)

/-- Occurrence of `sub` anywhere in the character list. -/
def containsSeq (sub : List Char) : List Char → Bool
  | [] => sub.isEmpty
  | c :: rest => sub.isPrefixOf (c :: rest) || containsSeq sub rest

/-- `strings.Contains s sub`. -/
def goContains (s sub : String) : Bool := containsSeq sub.toList s.toList

def cloneCmd (o : Options) : Cmd := nsCmd o.ns ("vm config clone " ++ o.vm)

def clearMigrateCmd (o : Options) : Cmd := nsCmd o.ns "clear vm config migrate"

def vcpuCmd (o : Options) : Cmd := nsCmd o.ns ("vm config vcpus " ++ toString o.cpu)

def memCmd (o : Options) : Cmd := nsCmd o.ns ("vm config mem " ++ toString o.mem)

/-- The tabular `vm config disk` lookup (columns/filters set, then cleared). -/
def diskConfigQueryCmd (o : Options) : Cmd :=
  { nsCmd o.ns "vm config disk" with columns := ["disks"], filters := ["name=" ++ o.vm] }

def diskConfigCmd (o : Options) (disk : String) : Cmd :=
  nsCmd o.ns ("vm config disk " ++ disk)

def snapshotCmd (o : Options) (disk : String) : Cmd :=
  nsCmd o.ns ("disk snapshot " ++ o.disk ++ " " ++ disk)

/-- The (un-namespaced) `disk inject` command of `inject` (minimega.go lines
798-809). -/
def injectCmd (disk : String) (part : ℕ) (injects : List String) : Cmd :=
  newCmd ("disk inject " ++ disk ++ ":" ++ toString part ++ " files "
    ++ String.intercalate " " injects)

def launchKvmCmd (o : Options) : Cmd := nsCmd o.ns ("vm launch kvm " ++ o.vm)

def launchCmd (o : Options) : Cmd := nsCmd o.ns "vm launch"

def startCmd (o : Options) : Cmd := nsCmd o.ns ("vm start " ++ o.vm)

/-- One early-returning protocol call of `RedeployVM`: on failure, the
accumulated trace plus this command, and the step's wrapped error. -/
def step (ctrl : Controller) (tr : List PEvent) (c : Cmd) (ctx : String) :
    Except (List PEvent × MErr) (List PEvent) :=
  match ctrl.run c with
  | some e => .error (tr ++ [.run c], .wrap ctx (.msg e))
  | none => .ok (tr ++ [.run c])

def ctxDiskCfg (o : Options) : String :=
  "configuring disk for VM " ++ o.vm ++ " in namespace " ++ o.ns

/-- The final `vm launch kvm` / `vm launch` / `vm start` phase. -/
def redeployLaunchPhase (ctrl : Controller) (o : Options) (tr : List PEvent) :
    Except (List PEvent × MErr) (List PEvent) := do
  let tr2 ← step ctrl tr (launchKvmCmd o)
    ("scheduling VM " ++ o.vm ++ " in namespace " ++ o.ns)
  let tr3 ← step ctrl tr2 (launchCmd o)
    ("launching scheduled VMs in namespace " ++ o.ns)
  step ctrl tr3 (startCmd o) ("starting VM " ++ o.vm ++ " in namespace " ++ o.ns)

/-- The optional disk phase (minimega.go lines 322-366), then the launch
phase: with no injects the disk override is configured directly; otherwise the
current disk config is queried (no rows is a failure), and a name containing
`_snapshot` triggers a disk snapshot plus file injection before the config. -/
def redeployDiskPhase (ctrl : Controller) (o : Options) (tr : List PEvent) :
    Except (List PEvent × MErr) (List PEvent) :=
  if o.disk ≠ "" then
    if o.injects.isEmpty then
      step ctrl tr (diskConfigCmd o o.disk) (ctxDiskCfg o) >>= redeployLaunchPhase ctrl o
    else
      let q := diskConfigQueryCmd o
      let tr2 := tr ++ [PEvent.query q]
      match ctrl.tab q with
      | [] => .error (tr2,
          .msg ("disk config not found for VM " ++ o.vm ++ " in namespace " ++ o.ns))
      | r :: _ =>
        let disk := goBase (rowGet r "disks")
        if goContains disk "_snapshot" then do
          let tr3 ← step ctrl tr2 (snapshotCmd o disk)
            ("snapshotting disk for VM " ++ o.vm ++ " in namespace " ++ o.ns)
          let tr4 ← step ctrl tr3 (injectCmd disk o.injectPart o.injects)
            ("injecting files into disk " ++ disk)
          step ctrl tr4 (diskConfigCmd o disk) (ctxDiskCfg o) >>= redeployLaunchPhase ctrl o
        else
          step ctrl tr2 (diskConfigCmd o o.disk) (ctxDiskCfg o) >>= redeployLaunchPhase ctrl o
  else redeployLaunchPhase ctrl o tr

/-- The optional vcpu/memory override phase, then the disk phase. -/
def redeployCpuMemPhase (ctrl : Controller) (o : Options) (tr : List PEvent) :
    Except (List PEvent × MErr) (List PEvent) :=
  (if o.cpu ≠ 0 then
    step ctrl tr (vcpuCmd o) ("configuring VCPUs for VM " ++ o.vm ++ " in namespace " ++ o.ns)
  else pure tr) >>= fun tr2 =>
  (if o.mem ≠ 0 then
    step ctrl tr2 (memCmd o) ("configuring memory for VM " ++ o.vm ++ " in namespace " ++ o.ns)
  else pure tr2) >>= fun tr3 =>
  redeployDiskPhase ctrl o tr3

/-- `RedeployVM` in the `Except` monad: clone config, clear the migrate flag,
kill, flush, then the optional and final phases. -/
def redeployGo (ctrl : Controller) (o : Options) :
    Except (List PEvent × MErr) (List PEvent) :=
  step ctrl [] (cloneCmd o) ("cloning VM " ++ o.vm ++ " in namespace " ++ o.ns) >>= fun tr =>
  step ctrl tr (clearMigrateCmd o)
    ("clearing config for VM " ++ o.vm ++ " in namespace " ++ o.ns) >>= fun tr2 =>
  step ctrl tr2 (killCmd o) ("killing VM " ++ o.vm ++ " in namespace " ++ o.ns) >>= fun tr3 =>
  step ctrl tr3 (flushCmd o.ns) ("flushing VMs in namespace " ++ o.ns) >>= fun tr4 =>
  redeployCpuMemPhase ctrl o tr4

/-- `RedeployVM` (minimega.go lines 282-385), as trace plus outcome. -/
def RedeployVM (ctrl : Controller) (o : Options) : List PEvent × Option MErr :=
  match redeployGo ctrl o with
  | .ok tr => (tr, none)
  | .error (tr, e) => (tr, some e)

/-! ### The planned step list and the generic step runner -/

/-- One planned workflow step: its protocol event, and the error `RedeployVM`
returns when this step is the first to fail (a function of the underlying
controller error; the disk-config query ignores it and uses a fixed message). -/
structure WStep where
  ev : PEvent
  wrapf : String → MErr

/-- Whether an event fails against the controller: a `run` command fails with
the controller's error; the disk-config `query` fails when it returns no rows. -/
def stepFails (ctrl : Controller) : PEvent → Option String
  | .run c => ctrl.run c
  | .query c => if ctrl.tab c = [] then some "" else none

/-- Error-wrapper for a `run` step. -/
def wrapRun (ctx : String) : String → MErr := fun e => .wrap ctx (.msg e)

/-- Run planned steps in order until the first failure, recording the trace. -/
def runSteps (ctrl : Controller) : List WStep → List PEvent × Option MErr
  | [] => ([], none)
  | s :: rest =>
    match stepFails ctrl s.ev with
    | some e => ([s.ev], some (s.wrapf e))
    | none =>
      let r := runSteps ctrl rest
      (s.ev :: r.1, r.2)

/-- The launch-phase steps. -/
def redeployLaunchSteps (o : Options) : List WStep :=
  [⟨.run (launchKvmCmd o), wrapRun ("scheduling VM " ++ o.vm ++ " in namespace " ++ o.ns)⟩,
   ⟨.run (launchCmd o), wrapRun ("launching scheduled VMs in namespace " ++ o.ns)⟩,
   ⟨.run (startCmd o), wrapRun ("starting VM " ++ o.vm ++ " in namespace " ++ o.ns)⟩]

/-- The disk-phase steps (empty when no disk override is requested). -/
def redeployDiskSteps (ctrl : Controller) (o : Options) : List WStep :=
  if o.disk ≠ "" then
    if o.injects.isEmpty then [⟨.run (diskConfigCmd o o.disk), wrapRun (ctxDiskCfg o)⟩]
    else
      ⟨.query (diskConfigQueryCmd o), fun _ =>
        .msg ("disk config not found for VM " ++ o.vm ++ " in namespace " ++ o.ns)⟩ ::
      (match ctrl.tab (diskConfigQueryCmd o) with
       | [] => []
       | r :: _ =>
         let disk := goBase (rowGet r "disks")
         if goContains disk "_snapshot" then
           [⟨.run (snapshotCmd o disk),
              wrapRun ("snapshotting disk for VM " ++ o.vm ++ " in namespace " ++ o.ns)⟩,
            ⟨.run (injectCmd disk o.injectPart o.injects),
              wrapRun ("injecting files into disk " ++ disk)⟩,
            ⟨.run (diskConfigCmd o disk), wrapRun (ctxDiskCfg o)⟩]
         else [⟨.run (diskConfigCmd o o.disk), wrapRun (ctxDiskCfg o)⟩])
  else []

/-- The optional vcpu/memory override steps. -/
def redeployCpuMemSteps (o : Options) : List WStep :=
  (if o.cpu ≠ 0 then
    [⟨.run (vcpuCmd o), wrapRun ("configuring VCPUs for VM " ++ o.vm ++ " in namespace " ++ o.ns)⟩]
  else [])
  ++ (if o.mem ≠ 0 then
    [⟨.run (memCmd o), wrapRun ("configuring memory for VM " ++ o.vm ++ " in namespace " ++ o.ns)⟩]
  else [])

/-- The full planned step list of `RedeployVM`, in source order. -/
def redeploySteps (ctrl : Controller) (o : Options) : List WStep :=
  ⟨.run (cloneCmd o), wrapRun ("cloning VM " ++ o.vm ++ " in namespace " ++ o.ns)⟩ ::
  ⟨.run (clearMigrateCmd o), wrapRun ("clearing config for VM " ++ o.vm ++ " in namespace " ++ o.ns)⟩ ::
  ⟨.run (killCmd o), wrapRun ("killing VM " ++ o.vm ++ " in namespace " ++ o.ns)⟩ ::
  ⟨.run (flushCmd o.ns), wrapRun ("flushing VMs in namespace " ++ o.ns)⟩ ::
  (redeployCpuMemSteps o ++ (redeployDiskSteps ctrl o ++ redeployLaunchSteps o))

/-- Interpret a runner outcome as an `Except`, appended to an accumulated
trace. -/
def liftRun (tr : List PEvent) (r : List PEvent × Option MErr) :
    Except (List PEvent × MErr) (List PEvent) :=
  match r.2 with
  | none => .ok (tr ++ r.1)
  | some e => .error (tr ++ r.1, e)

lemma runSteps_cons (ctrl : Controller) (s : WStep) (rest : List WStep) :
    runSteps ctrl (s :: rest) =
      match stepFails ctrl s.ev with
      | some e => ([s.ev], some (s.wrapf e))
      | none => (s.ev :: (runSteps ctrl rest).1, (runSteps ctrl rest).2) := by
  cases h : stepFails ctrl s.ev <;> simp only [runSteps, h]

lemma runSteps_cons_fail (ctrl : Controller) (s : WStep) (rest : List WStep) (e : String)
    (h : stepFails ctrl s.ev = some e) :
    runSteps ctrl (s :: rest) = ([s.ev], some (s.wrapf e)) := by
  rw [runSteps_cons, h]

lemma runSteps_cons_ok (ctrl : Controller) (s : WStep) (rest : List WStep)
    (h : stepFails ctrl s.ev = none) :
    runSteps ctrl (s :: rest) = (s.ev :: (runSteps ctrl rest).1, (runSteps ctrl rest).2) := by
  rw [runSteps_cons, h]

lemma pure_bind_except (a : List PEvent)
    (k : List PEvent → Except (List PEvent × MErr) (List PEvent)) :
    (pure a >>= k) = k a := rfl

lemma step_eq (ctrl : Controller) (tr : List PEvent) (c : Cmd) (ctx : String) :
    step ctrl tr c ctx = liftRun tr (runSteps ctrl [⟨.run c, wrapRun ctx⟩]) := by
  cases h : ctrl.run c with
  | some e =>
    rw [runSteps_cons_fail ctrl ⟨.run c, wrapRun ctx⟩ [] e h]
    simp [step, h, liftRun, wrapRun]
  | none =>
    rw [runSteps_cons_ok ctrl ⟨.run c, wrapRun ctx⟩ [] h]
    simp [step, h, liftRun, runSteps]

lemma bind_step_liftRun (ctrl : Controller) (tr : List PEvent) (c : Cmd) (ctx : String)
    (k : List PEvent → Except (List PEvent × MErr) (List PEvent)) (rest : List WStep)
    (hk : ∀ tr', k tr' = liftRun tr' (runSteps ctrl rest)) :
    step ctrl tr c ctx >>= k =
      liftRun tr (runSteps ctrl (⟨.run c, wrapRun ctx⟩ :: rest)) := by
  cases h : ctrl.run c with
  | some e =>
    rw [runSteps_cons_fail ctrl ⟨.run c, wrapRun ctx⟩ rest e h]
    have hstep : step ctrl tr c ctx = .error (tr ++ [PEvent.run c], MErr.wrap ctx (.msg e)) := by
      simp [step, h]
    rw [hstep]
    rfl
  | none =>
    rw [runSteps_cons_ok ctrl ⟨.run c, wrapRun ctx⟩ rest h]
    have hstep : step ctrl tr c ctx = .ok (tr ++ [PEvent.run c]) := by
      simp [step, h]
    rw [hstep]
    show k (tr ++ [PEvent.run c]) = _
    rw [hk]
    unfold liftRun
    cases h2 : (runSteps ctrl rest).2 <;> simp [h2]

lemma query_cons_liftRun (ctrl : Controller) (tr : List PEvent) (q : Cmd)
    (w : String → MErr) (rest : List WStep) (hne : ctrl.tab q ≠ []) :
    liftRun (tr ++ [PEvent.query q]) (runSteps ctrl rest) =
      liftRun tr (runSteps ctrl (⟨.query q, w⟩ :: rest)) := by
  rw [runSteps_cons_ok ctrl ⟨.query q, w⟩ rest (by simp [stepFails, hne])]
  unfold liftRun
  cases h2 : (runSteps ctrl rest).2 <;> simp [h2]

lemma launchPhase_eq (ctrl : Controller) (o : Options) (tr : List PEvent) :
    redeployLaunchPhase ctrl o tr = liftRun tr (runSteps ctrl (redeployLaunchSteps o)) := by
  unfold redeployLaunchPhase redeployLaunchSteps
  refine bind_step_liftRun _ _ _ _ _ _ (fun tr2 => ?_)
  refine bind_step_liftRun _ _ _ _ _ _ (fun tr3 => ?_)
  exact step_eq _ _ _ _

lemma diskPhase_eq (ctrl : Controller) (o : Options) (tr : List PEvent) :
    redeployDiskPhase ctrl o tr =
      liftRun tr (runSteps ctrl (redeployDiskSteps ctrl o ++ redeployLaunchSteps o)) := by
  unfold redeployDiskPhase redeployDiskSteps
  by_cases hd : o.disk ≠ ""
  · simp only [if_pos hd]
    by_cases hi : o.injects.isEmpty
    · simp only [if_pos hi, List.singleton_append]
      refine bind_step_liftRun _ _ _ _ _ _ (fun tr2 => ?_)
      exact launchPhase_eq ctrl o tr2
    · simp only [if_neg hi, List.cons_append]
      cases htab : ctrl.tab (diskConfigQueryCmd o) with
      | nil =>
        dsimp only
        rw [runSteps_cons_fail ctrl
          ⟨.query (diskConfigQueryCmd o), fun _ =>
            .msg ("disk config not found for VM " ++ o.vm ++ " in namespace " ++ o.ns)⟩
          _ "" (by simp [stepFails, htab])]
        rfl
      | cons r rs =>
        have hne : ctrl.tab (diskConfigQueryCmd o) ≠ [] := by
          rw [htab]
          simp
        dsimp only
        by_cases hc : goContains (goBase (rowGet r "disks")) "_snapshot" = true
        · simp only [if_pos hc]
          try simp only [List.cons_append, List.nil_append]
          rw [← query_cons_liftRun ctrl tr _ _ _ hne]
          refine bind_step_liftRun _ _ _ _ _ _ (fun tr3 => ?_)
          refine bind_step_liftRun _ _ _ _ _ _ (fun tr4 => ?_)
          refine bind_step_liftRun _ _ _ _ _ _ (fun tr5 => ?_)
          exact launchPhase_eq ctrl o tr5
        · simp only [if_neg hc]
          try simp only [List.singleton_append, List.cons_append, List.nil_append]
          rw [← query_cons_liftRun ctrl tr _ _ _ hne]
          refine bind_step_liftRun _ _ _ _ _ _ (fun tr3 => ?_)
          exact launchPhase_eq ctrl o tr3
  · simp only [if_neg hd, List.nil_append]
    exact launchPhase_eq ctrl o tr

lemma cpuMemPhase_eq (ctrl : Controller) (o : Options) (tr : List PEvent) :
    redeployCpuMemPhase ctrl o tr =
      liftRun tr (runSteps ctrl (redeployCpuMemSteps o ++
        (redeployDiskSteps ctrl o ++ redeployLaunchSteps o))) := by
  unfold redeployCpuMemPhase redeployCpuMemSteps
  by_cases hcpu : o.cpu ≠ 0 <;> by_cases hmem : o.mem ≠ 0
  · simp only [if_pos hcpu, if_pos hmem]
    try simp only [List.singleton_append, List.cons_append, List.nil_append]
    refine bind_step_liftRun _ _ _ _ _ _ (fun tr2 => ?_)
    refine bind_step_liftRun _ _ _ _ _ _ (fun tr3 => ?_)
    exact diskPhase_eq ctrl o tr3
  · simp only [if_pos hcpu, if_neg hmem]
    try simp only [List.append_nil, List.nil_append, List.singleton_append, List.cons_append]
    try simp only [pure_bind_except]
    refine bind_step_liftRun _ _ _ _ _ _ (fun tr2 => ?_)
    try simp only [pure_bind_except]
    exact diskPhase_eq ctrl o tr2
  · simp only [if_neg hcpu, if_pos hmem]
    try simp only [List.append_nil, List.nil_append, List.singleton_append, List.cons_append]
    try simp only [pure_bind_except]
    refine bind_step_liftRun _ _ _ _ _ _ (fun tr3 => ?_)
    exact diskPhase_eq ctrl o tr3
  · simp only [if_neg hcpu, if_neg hmem]
    try simp only [List.append_nil, List.nil_append]
    try simp only [pure_bind_except]
    exact diskPhase_eq ctrl o tr

lemma redeployGo_eq (ctrl : Controller) (o : Options) :
    redeployGo ctrl o = liftRun [] (runSteps ctrl (redeploySteps ctrl o)) := by
  unfold redeployGo redeploySteps
  refine bind_step_liftRun _ _ _ _ _ _ (fun tr => ?_)
  refine bind_step_liftRun _ _ _ _ _ _ (fun tr2 => ?_)
  refine bind_step_liftRun _ _ _ _ _ _ (fun tr3 => ?_)
  refine bind_step_liftRun _ _ _ _ _ _ (fun tr4 => ?_)
  exact cpuMemPhase_eq ctrl o tr4

lemma RedeployVM_eq_runSteps (ctrl : Controller) (o : Options) :
    RedeployVM ctrl o = runSteps ctrl (redeploySteps ctrl o) := by
  unfold RedeployVM
  rw [redeployGo_eq]
  cases h2 : (runSteps ctrl (redeploySteps ctrl o)).2 with
  | none =>
    simp only [liftRun, h2, List.nil_append]
    exact Prod.ext rfl h2.symm
  | some e =>
    simp only [liftRun, h2, List.nil_append]
    exact Prod.ext rfl h2.symm

lemma runSteps_none_char (ctrl : Controller) (steps : List WStep)
    (h : (runSteps ctrl steps).2 = none) :
    (runSteps ctrl steps).1 = steps.map (·.ev) ∧
    ∀ s ∈ steps, stepFails ctrl s.ev = none := by
  induction steps with
  | nil => simp [runSteps]
  | cons s rest ih =>
    cases hf : stepFails ctrl s.ev with
    | some e =>
      rw [runSteps_cons_fail ctrl s rest e hf] at h
      simp at h
    | none =>
      rw [runSteps_cons_ok ctrl s rest hf] at h ⊢
      obtain ⟨h1, h2⟩ := ih h
      refine ⟨by simp [h1], ?_⟩
      intro t ht
      rcases List.mem_cons.mp ht with he | hm
      · rw [he]
        exact hf
      · exact h2 t hm

lemma runSteps_some_char (ctrl : Controller) (steps : List WStep) (e : MErr)
    (h : (runSteps ctrl steps).2 = some e) :
    ∃ pre s post u, steps = pre ++ s :: post ∧
      (∀ t ∈ pre, stepFails ctrl t.ev = none) ∧
      stepFails ctrl s.ev = some u ∧ e = s.wrapf u ∧
      (runSteps ctrl steps).1 = pre.map (·.ev) ++ [s.ev] := by
  induction steps with
  | nil => simp [runSteps] at h
  | cons st rest ih =>
    cases hf : stepFails ctrl st.ev with
    | some u =>
      rw [runSteps_cons_fail ctrl st rest u hf] at h ⊢
      refine ⟨[], st, rest, u, by simp, by simp, hf, ?_, by simp⟩
      simp at h
      exact h.symm
    | none =>
      rw [runSteps_cons_ok ctrl st rest hf] at h ⊢
      obtain ⟨pre, s, post, u, hsplit, hpre, hsf, he, htr⟩ := ih h
      refine ⟨st :: pre, s, post, u, by rw [hsplit]; rfl, ?_, hsf, he, by simp [htr]⟩
      intro t ht
      rcases List.mem_cons.mp ht with h1 | h2
      · rw [h1]
        exact hf
      · exact hpre t h2

/-- Claim C4: `RedeployVM` issues its steps in source order; when every step
succeeds the trace is exactly the planned sequence, and when a step fails the
call returns that first failing step's wrapped error and its trace stops at the
failing step - no protocol command of any later step is issued. -/
theorem c4_redeploy_first_fail (ctrl : Controller) (o : Options) :
    ((RedeployVM ctrl o).2 = none →
      (RedeployVM ctrl o).1 = (redeploySteps ctrl o).map (·.ev) ∧
      ∀ s ∈ redeploySteps ctrl o, stepFails ctrl s.ev = none) ∧
    (∀ e, (RedeployVM ctrl o).2 = some e →
      ∃ pre s post u, redeploySteps ctrl o = pre ++ s :: post ∧
        (∀ t ∈ pre, stepFails ctrl t.ev = none) ∧
        stepFails ctrl s.ev = some u ∧ e = s.wrapf u ∧
        (RedeployVM ctrl o).1 = pre.map (·.ev) ++ [s.ev]) := by
  rw [RedeployVM_eq_runSteps]
  exact ⟨runSteps_none_char ctrl (redeploySteps ctrl o),
    fun e => runSteps_some_char ctrl (redeploySteps ctrl o) e⟩

def c4Opts : Options := { ns := "exp", vm := "worker" }

/-- Witness for C4: on an all-succeeding controller the redeploy trace is
exactly the planned source-order sequence. -/
theorem c4_redeploy_first_fail_witness :
    (RedeployVM allOkCtrl c4Opts).1 = (redeploySteps allOkCtrl c4Opts).map (·.ev) ∧
    ∀ s ∈ redeploySteps allOkCtrl c4Opts, stepFails allOkCtrl s.ev = none :=
  (c4_redeploy_first_fail allOkCtrl c4Opts).1 rfl

/-! ## `WaitForC2Response` (claim C2) -/

/-- Modelled from the spec: the C2 variadic options (`options.go` is not among
the given sources); per spec section 3 the wait timeout defaults to a fixed
duration.  The timeout is in integer milliseconds. -/
structure C2Options where
  ns : String := ""
  vm : String := ""
  command : String := ""
  commandID : String := ""
  timeoutMs : ℤ := 300000
deriving DecidableEq

/-- The `cc commands` status query of `WaitForC2Response` (minimega.go lines
721-724). -/
def ccCommandsCmd (o : C2Options) : Cmd :=
  { nsCmd o.ns "cc commands" with
    columns := ["id", "responses"]
    filters := ["id=" ++ o.commandID] }

/-- The final `cc response <id> raw` fetch. -/
def ccResponseCmd (o : C2Options) : Cmd :=
  nsCmd o.ns ("cc response " ++ o.commandID ++ " raw")

inductive WaitOutcome where
  | canceled
  | timedOut
  | noCommands
  | wrongID (rid : String)
  | completed
  | polling
deriving DecidableEq

/-- One iteration of the `WaitForC2Response` poll loop (minimega.go lines
731-758), i.e. one execution of the `select` statement.  Go evaluates
`time.After(o.timeout)` afresh on every iteration, creating a brand-new timer;
because the `select` has a `default` branch it never blocks, so that freshly
created timer channel is ready at the instant it is inspected only when the
timeout is non-positive.  The cancellation channel is ready exactly when the
context has been canceled.  `none` means the iteration fell through to the
default branch, polled, found every response count `"0"`, and slept one
second. -/
def waitTick (ctrl : Controller) (o : C2Options) (canceled : Bool) :
    Option WaitOutcome :=
  if canceled then some .canceled
  else if o.timeoutMs ≤ 0 then some .timedOut
  else
    match ctrl.tab (ccCommandsCmd o) with
    | [] => some .noCommands
    | r :: rs =>
      if rowGet r "id" ≠ o.commandID then some (.wrongID (rowGet r "id"))
      else if (r :: rs).any (fun row => rowGet row "responses" ≠ "0") then some .completed
      else none

/-- Whether the external cancellation (fired at iteration `k`) is visible at
iteration `i`; a closed `Done` channel stays ready. -/
def cancelFired (cancelAt : Option ℕ) (i : ℕ) : Bool :=
  match cancelAt with
  | some k => decide (k ≤ i)
  | none => false

/-- The poll loop, unrolled up to `fuel` iterations starting at iteration `i`
(each non-exiting iteration sleeps one second, so iteration `i` begins about
`i` seconds into the call).  `polling` means the loop was still running when
the fuel ran out - the real code would still be looping. -/
def waitLoop (ctrl : Controller) (o : C2Options) (cancelAt : Option ℕ) :
    ℕ → ℕ → WaitOutcome
  | _, 0 => .polling
  | i, fuel + 1 =>
    match waitTick ctrl o (cancelFired cancelAt i) with
    | some out => out
    | none => waitLoop ctrl o cancelAt (i + 1) fuel

/-- `WaitForC2Response` (minimega.go lines 718-772): run the poll loop; map
each loop exit to the corresponding error; on completion fetch the raw
response.  `none` means the loop was still polling after `fuel` iterations. -/
def WaitForC2Response (ctrl : Controller) (o : C2Options) (cancelAt : Option ℕ)
    (fuel : ℕ) : Option (Except MErr String) :=
  match waitLoop ctrl o cancelAt 0 fuel with
  | .polling => none
  | .canceled => some (.error (.msg "context canceled"))
  | .timedOut => some (.error (.msg ("timeout waiting for response for command "
      ++ o.commandID)))
  | .noCommands => some (.error (.msg ("no commands returned for ID " ++ o.commandID)))
  | .wrongID rid => some (.error (.msg ("wrong command returned: " ++ rid)))
  | .completed =>
    match ctrl.single (ccResponseCmd o) with
    | .error e => some (.error (.wrap ("getting response for command " ++ o.commandID)
        (.msg e)))
    | .ok resp => some (.ok resp)

/-- A controller double that always reports the command with a `"0"` response
count - completion never happens. -/
def c2NeverCtrl : Controller where
  run := fun _ => none
  tab := fun c => if c.command = "cc commands"
    then [[("id", "42"), ("responses", "0")]] else []
  resps := fun _ => []
  singleData := fun _ => .error ""
  single := fun _ => .error ""

def c2Opts : C2Options := { ns := "exp", vm := "foo", commandID := "42", timeoutMs := 200 }

/-- Claim C2 (code bug): with a positive 200 ms timeout and a controller that
never reports a nonzero response count, the poll loop never takes the timeout
branch - each iteration re-evaluates `time.After(o.timeout)`, and the
brand-new timer is not yet expired at the instant the non-blocking `select`
(which has a `default` branch) inspects it - so the call keeps polling forever
(in one-second sleeps) instead of returning a timeout failure within 250 ms.
Cancellation does work: a context canceled from the start yields the
distinguishable cancellation failure on the first iteration. -/
theorem c2_wait_never_times_out :
    (∀ i fuel, waitLoop c2NeverCtrl c2Opts none i fuel = .polling) ∧
    (∀ fuel, WaitForC2Response c2NeverCtrl c2Opts none fuel = none) ∧
    WaitForC2Response c2NeverCtrl c2Opts (some 0) 1 =
      some (.error (.msg "context canceled")) := by
  have h0 : waitTick c2NeverCtrl c2Opts false = none := by decide
  have hloop : ∀ fuel i, waitLoop c2NeverCtrl c2Opts none i fuel = .polling := by
    intro fuel
    induction fuel with
    | zero => intro i; rfl
    | succ n ih =>
      intro i
      have hcf : cancelFired none i = false := rfl
      show (match waitTick c2NeverCtrl c2Opts (cancelFired none i) with
        | some out => out
        | none => waitLoop c2NeverCtrl c2Opts none (i + 1) n) = .polling
      rw [hcf, h0]
      exact ih (i + 1)
  refine ⟨fun i fuel => hloop fuel i, fun fuel => ?_, rfl⟩
  unfold WaitForC2Response
  rw [hloop fuel 0]

/-! ## `GetVMInfo` row decoding (claim C10) -/

/-- `strings.Fields`: split on runs of whitespace, dropping empty pieces. -/
def goFields (s : List Char) : List (List Char) :=
  (s.splitOnP isGoSpace).filter (fun w => w ≠ [])

/-- Modelled from the spec: "Duration fields decode from the controller's
duration-string format into a numeric seconds value; a decode failure is
swallowed and the field left at zero" (spec section 4.3; `time.ParseDuration`
is Go library code, not among the given sources).  Only whole-second durations
`"<digits>s"` are modelled; no claim depends on the duration value. -/
def goParseDurationSecs (s : String) : Option ℚ :=
  let l := s.toList
  if l.getLast? = some 's' ∧ l.dropLast ≠ [] ∧ l.dropLast.all (·.isDigit)
  then some (digitsVal l.dropLast) else none

/-- A decoded VM (minimega.go `VM` fields used by `GetVMInfo`). -/
structure VM where
  host : String
  name : String
  running : Bool
  networks : List (List Char)
  taps : List (List Char)
  captures : List Capture
  uptime : ℚ
  ram : ℤ
  cpus : ℤ
  disk : String
deriving DecidableEq

/-- The `vm info` query of `GetVMInfo` (filtered by name when a VM is given). -/
def vmInfoQueryCmd (o : Options) : Cmd :=
  { nsCmd o.ns "vm info" with
    columns := ["host", "name", "state", "uptime", "vlan", "tap", "memory", "vcpus", "disks"]
    filters := if o.vm ≠ "" then ["name=" ++ o.vm] else [] }

/-- The unscoped `disk info <disk>` follow-up query. -/
def diskInfoCmd (disk : String) : Cmd := newCmd ("disk info " ++ disk)

/-- Decoding of one `vm info` row by `GetVMInfo` (minimega.go lines 126-185).
The two unguarded indexings - `strings.Fields(row["disks"])[0]` and
`mmcli.RunTabular(cmd)[0]` - are modelled as `Option`; `none` is the Go
index-out-of-range panic. -/
def decodeVMRow (ctrl : Controller) (ns : String) (row : Row) : Option VM :=
  let captures := ((ctrl.tab (captureQueryCmd ns)).map captureOfRow).filter
    (fun c => c.vm == rowGet row "name")
  match goFields (rowGet row "disks").toList with
  | [] => none
  | f :: _ =>
    let disk := String.mk ((f.splitOn ',').head?.getD [])
    match ctrl.tab (diskInfoCmd disk) with
    | [] => none
    | resp :: _ =>
      some {
        host := rowGet row "host"
        name := rowGet row "name"
        running := rowGet row "state" == "RUNNING"
        networks := decodeListField (rowGet row "vlan").toList
        taps := decodeListField (rowGet row "tap").toList
        captures := captures
        uptime := (goParseDurationSecs (rowGet row "uptime")).getD 0
        ram := atoiInt (rowGet row "memory")
        cpus := atoiInt (rowGet row "vcpus")
        disk := if rowGet resp "backingfile" = "" then rowGet resp "image"
                else rowGet resp "backingfile" }

/-- `GetVMInfo`: decode every returned row (`none` when any row panics). -/
def GetVMInfo (ctrl : Controller) (o : Options) : Option (List VM) :=
  (ctrl.tab (vmInfoQueryCmd o)).mapM (decodeVMRow ctrl o.ns)

/-- The first disk path of a row: first whitespace-separated field of the
`disks` column, up to the first comma. -/
def firstDiskOf (row : Row) : String :=
  String.mk ((((goFields (rowGet row "disks").toList).headD []).splitOn ',').head?.getD [])

/-- Claim C10: the disk resolution of `GetVMInfo` is total exactly under the
unstated precondition that the row's `disks` column is a non-empty
whitespace-separated list and the follow-up `disk info` query returns at least
one row; an empty `disks` field or a zero-row disk-info response makes the
decoding undefined (the Go index-out-of-range panic, modelled as `none`). -/
theorem c10_vm_info_disk_partiality (ctrl : Controller) (ns : String) (row : Row) :
    (decodeVMRow ctrl ns row).isSome = true ↔
      (goFields (rowGet row "disks").toList ≠ [] ∧
       ctrl.tab (diskInfoCmd (firstDiskOf row)) ≠ []) := by
  unfold decodeVMRow firstDiskOf
  cases hf : goFields (rowGet row "disks").toList with
  | nil => simp
  | cons f fs =>
    cases htab : ctrl.tab (diskInfoCmd (String.mk ((f.splitOn ',').head?.getD []))) with
    | nil => simp [htab]
    | cons resp rs => simp [htab]

/-! ## `ExecC2Command` and the C2 filter critical section (claim C1) -/

/-- The `vm info` cc_active query of `IsC2ClientActive` (minimega.go lines
669-688). -/
def ccActiveCmd (o : C2Options) : Cmd :=
  { nsCmd o.ns "vm info" with
    columns := ["cc_active"]
    filters := ["name=" ++ o.vm] }

/-- `IsC2ClientActive`: not-found if no row comes back, the
`ErrC2ClientNotActive` sentinel if `cc_active` is not `"true"`. -/
def IsC2ClientActive (ctrl : Controller) (o : C2Options) : Option MErr :=
  match ctrl.tab (ccActiveCmd o) with
  | [] => some (.msg ("no VMs returned for host " ++ o.vm))
  | r :: _ => if rowGet r "cc_active" ≠ "true" then some .c2NotActive else none

/-- The shared-filter set command of `ExecC2Command`. -/
def ccFilterCmd (o : C2Options) : Cmd := nsCmd o.ns ("cc filter name=" ++ o.vm)

/-- The exec-issue command of `ExecC2Command`. -/
def ccExecCmd (o : C2Options) : Cmd := nsCmd o.ns ("cc exec " ++ o.command)

/-- `ExecC2Command` (minimega.go lines 690-716), sequential behavior: the whole
body runs with the package-level `ccMu` mutex held (locked on entry, unlocked
by `defer`): check the client is active, set the shared cc filter to the target
VM, issue the exec and return the assigned command id. -/
def ExecC2Command (ctrl : Controller) (o : C2Options) : List Cmd × Except MErr String :=
  match IsC2ClientActive ctrl o with
  | some e => ([ccActiveCmd o], .error (.wrap "cannot execute command" e))
  | none =>
    match ctrl.run (ccFilterCmd o) with
    | some e => ([ccActiveCmd o, ccFilterCmd o],
        .error (.wrap ("setting host filter to " ++ o.vm) (.msg e)))
    | none =>
      match ctrl.singleData (ccExecCmd o) with
      | .error e => ([ccActiveCmd o, ccFilterCmd o, ccExecCmd o],
          .error (.wrap ("executing command " ++ o.command) (.msg e)))
      | .ok data => ([ccActiveCmd o, ccFilterCmd o, ccExecCmd o], .ok data)

/-- A filter-set or exec-issue protocol event, tagged by its caller: thread
`true` is caller A, thread `false` is caller B. -/
inductive CCEvent where
  | filter (t : Bool)
  | exec (t : Bool)
deriving DecidableEq

/-- Interleaving state of two concurrent `ExecC2Command` calls targeting
different VMs.  Each thread runs the program of minimega.go lines 690-716:
acquire the package-level `ccMu` mutex (pc 0 to 1, only when it is free), issue
the `cc filter` command (pc 1 to 2), issue the `cc exec` command (pc 2 to 3),
release the mutex via the deferred unlock (pc 3 to 4).  (The
`IsC2ClientActive` query also runs under the lock but issues neither of the two
events the claim is about, so it is not part of the event alphabet.)  `trace`
is the global order in which the controller observes the filter/exec
commands. -/
structure CCState where
  pcA : ℕ
  pcB : ℕ
  lockHeld : Option Bool
  trace : List CCEvent
deriving DecidableEq

def ccInit : CCState := ⟨0, 0, none, []⟩

def pcOf (s : CCState) (t : Bool) : ℕ := if t then s.pcA else s.pcB

def setPc (s : CCState) (t : Bool) (pc : ℕ) : CCState :=
  if t then { s with pcA := pc } else { s with pcB := pc }

/-- The steps thread `t` can take from `s` (mutex semantics: acquisition only
when the lock is free; the other transitions require holding it). -/
def threadSteps (s : CCState) (t : Bool) : List CCState :=
  if pcOf s t = 0 ∧ s.lockHeld = none then
    [{ setPc s t 1 with lockHeld := some t }]
  else if pcOf s t = 1 ∧ s.lockHeld = some t then
    [{ setPc s t 2 with trace := s.trace ++ [CCEvent.filter t] }]
  else if pcOf s t = 2 ∧ s.lockHeld = some t then
    [{ setPc s t 3 with trace := s.trace ++ [CCEvent.exec t] }]
  else if pcOf s t = 3 ∧ s.lockHeld = some t then
    [{ setPc s t 4 with lockHeld := none }]
  else []

/-- All interleaving successors of `s`. -/
def ccSucc (s : CCState) : List CCState := threadSteps s true ++ threadSteps s false

def CCStep (s s' : CCState) : Prop := s' ∈ ccSucc s

instance (s s' : CCState) : Decidable (CCStep s s') := by
  unfold CCStep
  infer_instance

/-- A state of the two-caller system reachable from the initial state. -/
def CCReachable (s : CCState) : Prop := Relation.ReflTransGen CCStep ccInit s

/-- Append the states of `xs` not already present (order-stable breadth-first
accumulation, so the exploration reaches a syntactic fixpoint). -/
def addNew (acc : List CCState) (xs : List CCState) : List CCState :=
  xs.foldl (fun a x => if x ∈ a then a else a ++ [x]) acc

/-- All states reachable in at most `n` steps. -/
def reachList : ℕ → List CCState
  | 0 => [ccInit]
  | n + 1 => addNew (reachList n) ((reachList n).flatMap ccSucc)

lemma mem_addNew_left (xs : List CCState) (acc : List CCState) (x : CCState)
    (h : x ∈ acc) : x ∈ addNew acc xs := by
  induction xs generalizing acc with
  | nil => exact h
  | cons y ys ih =>
    unfold addNew
    rw [List.foldl_cons]
    refine ih _ ?_
    by_cases hy : y ∈ acc
    · simpa [hy] using h
    · simp only [hy, if_false]
      exact List.mem_append_left _ h

lemma mem_addNew_right (xs : List CCState) (acc : List CCState) (x : CCState)
    (h : x ∈ xs) : x ∈ addNew acc xs := by
  induction xs generalizing acc with
  | nil => simp at h
  | cons y ys ih =>
    unfold addNew
    rw [List.foldl_cons]
    rcases List.mem_cons.mp h with he | hm
    · refine mem_addNew_left ys _ x ?_
      by_cases hy : y ∈ acc
      · simp only [hy, if_true]
        rw [he]
        exact hy
      · simp only [hy, if_false]
        rw [he]
        exact List.mem_append_right _ (by simp)
    · exact ih _ hm

lemma reachList_le (m n : ℕ) (h : m ≤ n) (x : CCState) (hx : x ∈ reachList m) :
    x ∈ reachList n := by
  induction n with
  | zero =>
    rw [Nat.le_zero.mp h] at hx
    exact hx
  | succ k ih =>
    rcases Nat.lt_or_ge m (k + 1) with hlt | hge
    · have := ih (Nat.lt_succ_iff.mp hlt)
      unfold reachList
      exact mem_addNew_left _ _ _ this
    · rw [Nat.le_antisymm h hge] at hx
      exact hx

lemma reachList_closed (k : ℕ) (hfix : reachList (k + 1) = reachList k)
    (s s' : CCState) (hs : s ∈ reachList k) (h : CCStep s s') :
    s' ∈ reachList k := by
  rw [← hfix]
  unfold reachList
  exact mem_addNew_right _ _ _ (List.mem_flatMap.mpr ⟨s, hs, h⟩)

lemma reachable_mem (k : ℕ) (hfix : reachList (k + 1) = reachList k)
    (s : CCState) (h : CCReachable s) : s ∈ reachList k := by
  induction h with
  | refl => exact reachList_le 0 k (Nat.zero_le k) ccInit (by simp [reachList])
  | tail hab hbc ih => exact reachList_closed k hfix _ _ ih hbc

/-- Both calls have completed. -/
def ccFinal (s : CCState) : Bool := s.pcA = 4 && s.pcB = 4

/-- The trace is one of the two non-interleaved orders. -/
def ccTraceOK (s : CCState) : Bool :=
  decide (s.trace = [CCEvent.filter true, CCEvent.exec true,
    CCEvent.filter false, CCEvent.exec false]) ||
  decide (s.trace = [CCEvent.filter false, CCEvent.exec false,
    CCEvent.filter true, CCEvent.exec true])

/-- Claim C1: for two concurrent `ExecC2Command` calls, the package-level
`ccMu` mutex - held across both the `cc filter` and the `cc exec` command -
prevents any interleaving of the two calls' filter/exec pairs: every complete
execution observes `filter(A), exec(A), filter(B), exec(B)` or the reverse. -/
theorem c1_exec_c2_no_interleaving (s : CCState) (h : CCReachable s)
    (hA : s.pcA = 4) (hB : s.pcB = 4) :
    s.trace = [CCEvent.filter true, CCEvent.exec true,
      CCEvent.filter false, CCEvent.exec false] ∨
    s.trace = [CCEvent.filter false, CCEvent.exec false,
      CCEvent.filter true, CCEvent.exec true] := by
  have hfix : reachList 9 = reachList 8 := by decide
  have hmem : s ∈ reachList 8 := reachable_mem 8 hfix s h
  have hall : ∀ x ∈ reachList 8, ccFinal x = true → ccTraceOK x = true := by decide
  have hres := hall s hmem (by simp [ccFinal, hA, hB])
  simp only [ccTraceOK, Bool.or_eq_true, decide_eq_true_eq] at hres
  exact hres

/-- Witness for C1: the A-then-B execution is reachable and complete, and its
trace is the first of the two permitted orders. -/
theorem c1_exec_c2_no_interleaving_witness :
    (⟨4, 4, none, [CCEvent.filter true, CCEvent.exec true,
      CCEvent.filter false, CCEvent.exec false]⟩ : CCState).trace =
      [CCEvent.filter true, CCEvent.exec true,
        CCEvent.filter false, CCEvent.exec false] ∨
    (⟨4, 4, none, [CCEvent.filter true, CCEvent.exec true,
      CCEvent.filter false, CCEvent.exec false]⟩ : CCState).trace =
      [CCEvent.filter false, CCEvent.exec false,
        CCEvent.filter true, CCEvent.exec true] := by
  have h1 : CCReachable ⟨1, 0, some true, []⟩ :=
    Relation.ReflTransGen.tail Relation.ReflTransGen.refl (by decide)
  have h2 : CCReachable ⟨2, 0, some true, [CCEvent.filter true]⟩ :=
    Relation.ReflTransGen.tail h1 (by decide)
  have h3 : CCReachable ⟨3, 0, some true, [CCEvent.filter true, CCEvent.exec true]⟩ :=
    Relation.ReflTransGen.tail h2 (by decide)
  have h4 : CCReachable ⟨4, 0, none, [CCEvent.filter true, CCEvent.exec true]⟩ :=
    Relation.ReflTransGen.tail h3 (by decide)
  have h5 : CCReachable ⟨4, 1, some false, [CCEvent.filter true, CCEvent.exec true]⟩ :=
    Relation.ReflTransGen.tail h4 (by decide)
  have h6 : CCReachable ⟨4, 2, some false,
      [CCEvent.filter true, CCEvent.exec true, CCEvent.filter false]⟩ :=
    Relation.ReflTransGen.tail h5 (by decide)
  have h7 : CCReachable ⟨4, 3, some false, [CCEvent.filter true, CCEvent.exec true,
      CCEvent.filter false, CCEvent.exec false]⟩ :=
    Relation.ReflTransGen.tail h6 (by decide)
  have h8 : CCReachable ⟨4, 4, none, [CCEvent.filter true, CCEvent.exec true,
      CCEvent.filter false, CCEvent.exec false]⟩ :=
    Relation.ReflTransGen.tail h7 (by decide)
  exact c1_exec_c2_no_interleaving _ h8 rfl rfl
